import Mathlib

/-
Verification development for the Ricochet event-driven state-management
engine (`src/EpicStore.js`).  The definitions below are a shallow embedding
of the dispatch core: condition compilation and registration, the updater
evaluator, the action pump's direct and pattern routing, cycle commit and
rollback, the listener dispatcher, and the undo/redo stack discipline.
Stateful JavaScript is modelled by explicit state passing; thrown errors by
`Except`/`Option`; JavaScript objects whose relevant keys are strings by
association lists.
-/

set_option autoImplicit false

namespace Ricochet

/-- Scalar JavaScript values as used by the engine: `undefined`, the
`initialValue` sentinel exported by the Frozen layer, numbers and strings. -/
inductive Val where
  | undef
  | initial
  | num (n : Int)
  | str (s : String)
deriving Repr, DecidableEq, Inhabited

/-- JavaScript truthiness for the values of `Val` (the sentinel is a Symbol,
hence truthy; `0` and the empty string are falsy). -/
def jsTruthy : Val → Bool
  | .undef => false
  | .initial => true
  | .num n => n != 0
  | .str s => s ≠ ""

/-- Modelled from the spec: the Frozen value layer (`./Frozen`) is imported by
`EpicStore.js` but is not among the provided sources.  Spec 4.A: `freeze`
produces an immutable snapshot; over the scalar values modelled here it is
the identity. -/
def freeze (v : Val) : Val := v

/-- Modelled from the spec: `unfreeze` is a deep copy producing a mutable
clone; over scalar values it is the identity. -/
def unfreeze (v : Val) : Val := v

/-- Modelled from the spec: the sentinel `INITIAL` exported by the Frozen
layer, distinct from every user value and compared by identity. -/
def initialValue : Val := Val.initial

/-- Modelled from the spec: `merge(target, patch) → (merged, undoPatch,
redoPatch)`; spec 4.A: scalar replacement yields `undo = oldScalar`,
`redo = newScalar`. -/
def merge (target patch : Val) : Val × Val × Val := (patch, target, patch)

/-- A compiled condition (`processCondition`): `type`, `passive`, `required`,
the committed `value`, the transient staged `_value` and `matchedPattern`
flag, and the compiled selector. -/
structure Cond where
  type : String
  passive : Bool
  required : Bool
  value : Val
  _value : Option Val
  matchedPattern : Bool
  selector : Val → String → Val

/-- The identity selector installed by `processCondition` when no selector is
given (`condition.selector = state => state`). -/
def idSelector : Val → String → Val := fun state _ => state

def defaultCond : Cond :=
  { type := "", passive := false, required := false, value := Val.initial,
    _value := none, matchedPattern := false, selector := idSelector }

instance : Inhabited Cond := ⟨defaultCond⟩

/-- `didConditionChange`: the condition carries a staged `_value` and it
differs from the committed `value` (source line 55). -/
def didConditionChange (condition : Cond) : Bool :=
  condition._value.isSome && condition._value != some condition.value

/-- `getHandlerParams`: for each condition `_value ?? value`, with the
`initialValue` sentinel surfaced as `undefined` (source lines 57-60). -/
def getHandlerParams (conditions : List Cond) : List Val :=
  conditions.map fun condition =>
    let value := condition._value.getD condition.value
    if value = initialValue then Val.undef else value

/-- An action after `validateAction`: a `type` and a `payload`. -/
structure Action where
  type : String
  payload : Val
deriving Repr, DecidableEq, Inhabited

/-- A raw action handed to `dispatch` or returned in a handler's `actions`
list: either a bare string or an action object. -/
inductive ActionIn where
  | strA (s : String)
  | objA (a : Action)

/-- `validateAction` (source line 51): a bare string becomes `{type}`. -/
def validateAction : ActionIn → Action
  | .strA s => { type := s, payload := Val.undef }
  | .objA a => a

/-- `getSelectorValue` (source line 53): apply the condition's selector to the
action's payload and type. -/
def getSelectorValue (condition : Cond) (action : Action) : Val :=
  condition.selector action.payload action.type

/-- `resetCondition(shouldUpdate, condition)` (source lines 74-80): on commit
promote the staged `_value` (when present) into `value`; always drop the
transient `_value` and `matchedPattern`. -/
def resetCondition (shouldUpdate : Bool) (condition : Cond) : Cond :=
  let c :=
    if shouldUpdate && condition._value.isSome then
      { condition with value := condition._value.getD condition.value }
    else condition
  { c with _value := none, matchedPattern := false }

/-- The state/scope cell of a (singleton) Epic: committed `state` and `scope`
plus the transient staged `_state` and `_scope`. -/
structure EpicInst where
  state : Val
  scope : Val
  _state : Option Val
  _scope : Option Val
deriving Repr, DecidableEq, Inhabited

/-- `resetEpic(epic, shouldUpdate)` (source lines 64-72): on commit promote
`_state`/`_scope` into `state`/`scope`; always delete the staged fields. -/
def resetEpic (epic : EpicInst) (shouldUpdate : Bool) : EpicInst :=
  let e :=
    if shouldUpdate then
      { epic with state := epic._state.getD Val.undef, scope := epic._scope.getD Val.undef }
    else epic
  { e with _state := none, _scope := none }

/-- The lazy staging snapshot taken by `processUpdater` before invoking a
handler (source lines 300-301): `_state`/`_scope` are initialised from the
committed values when not already staged this cycle. -/
def stageInit (epic : EpicInst) : EpicInst :=
  { epic with
    _state := some (epic._state.getD epic.state),
    _scope := some (epic._scope.getD epic.scope) }

/-- Tokens of the regular expressions produced by `getRegexFromPattern`
(source line 62): the source builds `new RegExp('^' + pattern.replace(/\*/g,
'.*?') + '$')`, so each `*` of the pattern contributes a lazy any-sequence
`.*?`, each `.` of the pattern stays an unescaped any-character, and every
other (non-metacharacter) character matches literally. -/
inductive RTok where
  | lit (c : Char)
  | dot
  | dotStar
deriving Repr, DecidableEq

/-- Characters that would carry further JavaScript regex meaning which this
model does not interpret; patterns containing them are mapped to `none`. -/
def jsMetaChars : List Char :=
  ['\\', '(', ')', '[', ']', '\x7b', '\x7d', '+', '?', '|', '^', '$', '/']

/-- Translation of one pattern character under `'^' + pattern.replace(/\*/g,
'.*?') + '$'`: `*` becomes a lazy any-sequence, `.` stays the any-character
metacharacter, anything else matches itself. -/
def tok (c : Char) : RTok :=
  if c = '*' then RTok.dotStar else if c = '.' then RTok.dot else RTok.lit c

/-- `getRegexFromPattern` (source line 62), compiled to the token form;
`none` for patterns containing regex metacharacters beyond `*` and `.`. -/
def getRegexFromPattern : List Char → Option (List RTok)
  | [] => some []
  | c :: cs =>
    if c ∈ jsMetaChars then none
    else (getRegexFromPattern cs).map (tok c :: ·)

/-- Anchored acceptance of a token regex, fuelled so that every equation is
structural; one unit of fuel is spent per step and each step shrinks
`pattern + text`, so the wrapper's fuel is always sufficient. -/
def rxAcceptGo : Nat → List RTok → List Char → Bool
  | 0, _, _ => false
  | _ + 1, [], ts => ts.isEmpty
  | fuel + 1, .lit c :: ps, ts =>
    match ts with
    | [] => false
    | t :: ts2 => c = t && rxAcceptGo fuel ps ts2
  | fuel + 1, .dot :: ps, ts =>
    match ts with
    | [] => false
    | _ :: ts2 => rxAcceptGo fuel ps ts2
  | fuel + 1, .dotStar :: ps, ts =>
    rxAcceptGo fuel ps ts ||
      (match ts with
       | [] => false
       | _ :: ts2 => rxAcceptGo fuel (RTok.dotStar :: ps) ts2)

/-- Whether the anchored regex `r` accepts the whole text `ts` (the semantics
of `regex.test(actionType)` for the regexes built by
`getRegexFromPattern`). -/
def rxAccept (r : List RTok) (ts : List Char) : Bool :=
  rxAcceptGo (r.length + ts.length + 1) r ts

/-- Pure wildcard matching as the spec describes pattern conditions: `*`
matches any sequence and every other character matches only itself,
anchored at both ends.  Same fuel discipline as `rxAcceptGo`. -/
def wildMatchGo : Nat → List Char → List Char → Bool
  | 0, _, _ => false
  | _ + 1, [], ts => ts.isEmpty
  | fuel + 1, p :: ps, ts =>
    if p = '*' then
      wildMatchGo fuel ps ts ||
        (match ts with
         | [] => false
         | _ :: ts2 => wildMatchGo fuel (p :: ps) ts2)
    else
      match ts with
      | [] => false
      | t :: ts2 => p = t && wildMatchGo fuel ps ts2

/-- Anchored wildcard matching of a whole pattern against a whole text. -/
def wildMatch (P T : List Char) : Bool :=
  wildMatchGo (P.length + T.length + 1) P T

/-- Whether an action type is routed to the updaters and listeners registered
under a pattern key: `getRegexFromPattern(key).test(type)` (source lines
342-344 and 152-155). -/
def patternTriggers (key ty : String) : Bool :=
  match getRegexFromPattern key.toList with
  | some r => rxAccept r ty.toList
  | none => false

/-- The handler context passed by `processUpdater` (source lines 303-307). -/
structure HandlerCtx where
  state : Val
  currentCycleState : Val
  scope : Val
  currentCycleScope : Val
  sourceAction : Action
  currentAction : Action

/-- The object a reducer handler returns: optional `state` and `scope` deltas,
optional queued `actions`, and the `passive` flag that suppresses the
chained Epic action. -/
structure HandlerUpdate where
  state : Option Val
  scope : Option Val
  actions : Option (List ActionIn)
  passive : Bool

/-- A compiled updater: owning epic, one conjunctive vector of conditions,
its handler and its registration index (source line 112). -/
structure Updater where
  epic : String
  conditions : List Cond
  handler : List Val → HandlerCtx → HandlerUpdate
  index : Nat

/-- `processUpdater` for a singleton Epic (source lines 265-322).  The active
condition is identified positionally (`condition === activeCondition`).
Returns the updated instance, the list of actions handed to
`processAction` in order — the chained Epic action (external flag
`false`), then the reducer's queued `actions` (external flag `true`) —
and whether the handler was invoked. -/
def processUpdater (action : Action) (activeIdx : Nat) (updater : Updater)
    (forcePassiveUpdate : Bool) (sourceAction : Action) (inst : EpicInst) :
    EpicInst × List (Action × Bool) × Bool :=
  let conditions := updater.conditions
  let activeCondition := (conditions.get? activeIdx).getD defaultCond
  if activeCondition.passive &&
      !(conditions.any fun condition =>
        !condition.passive && (condition.matchedPattern || didConditionChange condition)) then
    (inst, [], false)
  else if !(conditions.enum.all fun ic =>
      ic.1 = activeIdx || ic.2.passive || !ic.2.required ||
      ic.2.matchedPattern || didConditionChange ic.2) then
    (inst, [], false)
  else
    let inst1 := stageInit inst
    let handlerUpdate := updater.handler (getHandlerParams conditions)
      { state := inst.state, currentCycleState := inst1._state.getD Val.undef,
        scope := inst.scope, currentCycleScope := inst1._scope.getD Val.undef,
        sourceAction := sourceAction, currentAction := action }
    let inst2 :=
      match handlerUpdate.scope with
      | some delta =>
        { inst1 with _scope := some (freeze (merge (unfreeze (inst1._scope.getD Val.undef)) delta).1) }
      | none => inst1
    let stateStep : EpicInst × List (Action × Bool) :=
      match handlerUpdate.state with
      | some delta =>
        let newState := freeze (merge (unfreeze (inst2._state.getD Val.undef)) delta).1
        ({ inst2 with _state := some newState },
         if !forcePassiveUpdate && !handlerUpdate.passive then
           [({ type := updater.epic, payload := newState }, false)]
         else [])
      | none => (inst2, [])
    let queued :=
      match handlerUpdate.actions with
      | some as => as.map fun a => (validateAction a, true)
      | none => []
    (stateStep.1, stateStep.2 ++ queued, true)

/-- The body of the direct-updater loop of `processAction` (source lines
330-338): locate the triggering condition by type, stage its selector
value, and skip the updater when the action is internal and the selector
value did not change. -/
def processActionDirect (action : Action) ( external : Bool) (updater : Updater)
    (sourceAction : Action) (inst : EpicInst) :
    Updater × EpicInst × List (Action × Bool) × Bool :=
  match updater.conditions.findIdx? (fun condition => condition.type = action.type) with
  | none => (updater, inst, [], false)
  | some i =>
    let c0 := (updater.conditions.get? i).getD defaultCond
    let activeCondition := { c0 with _value := some (getSelectorValue c0 action) }
    let updater1 := { updater with conditions := updater.conditions.set i activeCondition }
    if ! external && !didConditionChange activeCondition then (updater1, inst, [], false)
    else
      let r := processUpdater action i updater1 false sourceAction inst
      (updater1, r.1, r.2.1, r.2.2)

/-- The body of the pattern-updater loop of `processAction` (source lines
341-354): when the action type matches the pattern key, flag the
triggering condition with `matchedPattern` and evaluate the updater with
`forcePassiveUpdate = (key === '*')`. -/
def processActionPattern (action : Action) (key : String) (updater : Updater)
    (sourceAction : Action) (inst : EpicInst) :
    Updater × EpicInst × List (Action × Bool) × Bool :=
  if patternTriggers key action.type then
    match updater.conditions.findIdx? (fun condition => condition.type = key) with
    | none => (updater, inst, [], false)
    | some i =>
      let c0 := (updater.conditions.get? i).getD defaultCond
      let activeCondition := { c0 with matchedPattern := true }
      let updater1 := { updater with conditions := updater.conditions.set i activeCondition }
      let r := processUpdater action i updater1 (key = "*") sourceAction inst
      (updater1, r.1, r.2.1, r.2.2)
  else (updater, inst, [], false)

/-- Errors as thrown by JavaScript code in the engine: `TypeError`s raised by
the engine itself and arbitrary values thrown by user handlers. -/
inductive JsError where
  | typeError (msg : String)
  | thrown (v : Val)
deriving Repr, DecidableEq

/-- An epic listener: compiled conditions plus a handler receiving the
handler-param view and the source action, which may throw. -/
structure Listener where
  conditions : List Cond
  handler : List Val → Action → Except JsError Unit

/-- Evaluation of one listener condition against the cycle's `epicCache`
(source lines 178-211, exact-type conditions for singleton epics; a type
absent from the cache is the unchanged-required branch of lines 208-211).
Returns the condition (with `_value` staged when its epic changed) and its
contribution to `(hasRequired, hasChangedActive, hasUnchangedRequired)`. -/
def evalListenerCond (epicCache : List (String × Val)) (condition : Cond) :
    Cond × Bool × Bool × Bool :=
  let missing : Cond × Bool × Bool × Bool :=
    if condition.required then (condition, true, false, true)
    else (condition, false, false, false)
  match epicCache.lookup condition.type with
  | some payload =>
    if jsTruthy payload then
      let c := { condition with _value := some (condition.selector payload condition.type) }
      if condition.required then (c, true, false, !didConditionChange c)
      else if !condition.passive && didConditionChange c then (c, false, true, false)
      else (c, false, false, false)
    else missing
  | none => missing

/-- Fold `evalListenerCond` over a listener's conditions, or-ing the three
flags (source lines 173-212). -/
def listenerFlags (epicCache : List (String × Val)) :
    List Cond → List Cond × Bool × Bool × Bool
  | [] => ([], false, false, false)
  | condition :: rest =>
    let h := evalListenerCond epicCache condition
    let t := listenerFlags epicCache rest
    (h.1 :: t.1, h.2.1 || t.2.1, h.2.2.1 || t.2.2.1, h.2.2.2 || t.2.2.2)

/-- One listener's evaluation (source lines 168-222): stage condition values,
apply the fire rule — with required conditions all of them must have
changed, otherwise some active condition must have changed — and when
firing run the handler, catching anything it throws. -/
def runListener (epicCache : List (String × Val)) (sourceAction : Action)
    (listener : Listener) : Listener × Option JsError :=
  let f := listenerFlags epicCache listener.conditions
  let conds := f.1
  let hasRequired := f.2.1
  let hasChangedActive := f.2.2.1
  let hasUnchangedRequired := f.2.2.2
  let fire := if hasRequired then !hasUnchangedRequired else hasChangedActive
  let err :=
    if fire then
      match listener.handler (getHandlerParams conds) sourceAction with
      | .ok _ => none
      | .error e => some e
    else none
  ({ listener with conditions := conds }, err)

/-- `processEpicListeners` (source lines 145-233) for singleton epics and
exact-type listeners, over an already-gathered candidate list.  Modelled
from the spec for two snapshot slips: the source returns the unbound name
`errors`, which spec 9 says to read as the collected
`postProcessingErrors`, and it dereferences `epicCache[type]` without a
guard, which spec 4.G routes to the unchanged-required branch.  Every
fired handler runs, its exception caught individually; afterwards all
listener conditions are reset with promotion (lines 227-230). -/
def processEpicListeners (epicCache : List (String × Val)) (listeners : List Listener)
    (sourceAction : Action) : List Listener × List JsError :=
  let step := listeners.map (runListener epicCache sourceAction)
  let reset := step.map fun p =>
    { p.1 with conditions := p.1.conditions.map (resetCondition true) }
  (reset, step.filterMap (·.2))

/-- One recorded inverse/forward patch pair (`{undo: undoChange, redo:
redoChange}` of source line 256). -/
structure Patches where
  undo : Val
  redo : Val
deriving Repr, DecidableEq

/-- The undo entry recorded for one epic instance: entity name (`state` or
`scope`) to patch pair, exactly the layout written by `makeHandleUpdate`
(source lines 252-258). -/
abbrev EntityPatches := List (String × Patches)

/-- A cycle's undo entry: epic name to instance id to entity patches. -/
abbrev UndoEntry := List (String × List (String × EntityPatches))

/-- The engine state a dispatch cycle mutates: the singleton epic registry
cells, the pool of compiled condition objects referenced by updaters and
the condition cache, and the undo/redo stacks. -/
structure CycleStore where
  epics : List (String × EpicInst)
  conds : List Cond
  undoStack : List UndoEntry
  redoStack : List UndoEntry

/-- The per-cycle caches of the controller (source line 236): the names of
touched epics and the indices of conditions pushed into
`conditionCache`. -/
structure CycleCaches where
  epicCache : List String
  conditionCache : List Nat

def emptyCaches : CycleCaches := { epicCache := [], conditionCache := [] }

/-- Association-list lookup for the epic registry. -/
def lookupEpic : List (String × EpicInst) → String → Option EpicInst
  | [], _ => none
  | (n, e) :: rest, name => if n = name then some e else lookupEpic rest name

/-- Point update of the epic registry (a JavaScript property write on an
existing epic object). -/
def updateEpic (epics : List (String × EpicInst)) (name : String)
    (f : EpicInst → EpicInst) : List (String × EpicInst) :=
  epics.map fun p => if p.1 = name then (p.1, f p.2) else p

/-- Point update of the condition pool (a write to the condition object that
position `i` aliases). -/
def setCondAt (conds : List Cond) (i : Nat) (f : Cond → Cond) : List Cond :=
  match conds.get? i with
  | some c => conds.set i (f c)
  | none => conds

/-- The store mutations a dispatch cycle performs before its commit/rollback
phase.  `initStage` is the lazy snapshot of source lines 300-301 —
modelled from the spec for the `epicCache` marking, since the snapshot
never populates `epicCache` (spec 4.F: the names of epics whose `_state`
was touched); `stageState`/`stageScope` are the staged writes of source
line 250; `setCondValue` and `setMatched` are the condition writes of
source lines 332 and 347 together with their `conditionCache` pushes. -/
inductive CycleOp where
  | initStage (name : String)
  | stageState (name : String) (v : Val)
  | stageScope (name : String) (v : Val)
  | setCondValue (i : Nat) (v : Val)
  | setMatched (i : Nat)

def applyOp (sc : CycleStore × CycleCaches) (op : CycleOp) : CycleStore × CycleCaches :=
  match op with
  | .initStage name =>
    ({ sc.1 with epics := updateEpic sc.1.epics name stageInit },
     { sc.2 with epicCache :=
        if name ∈ sc.2.epicCache then sc.2.epicCache else sc.2.epicCache ++ [name] })
  | .stageState name v =>
    ({ sc.1 with epics := updateEpic sc.1.epics name fun e => { e with _state := some v } }, sc.2)
  | .stageScope name v =>
    ({ sc.1 with epics := updateEpic sc.1.epics name fun e => { e with _scope := some v } }, sc.2)
  | .setCondValue i v =>
    ({ sc.1 with conds := setCondAt sc.1.conds i fun c => { c with _value := some v } },
     { sc.2 with conditionCache := sc.2.conditionCache ++ [i] })
  | .setMatched i =>
    ({ sc.1 with conds := setCondAt sc.1.conds i fun c => { c with matchedPattern := true } },
     { sc.2 with conditionCache := sc.2.conditionCache ++ [i] })

/-- Run a cycle's mutation trace. -/
def runOps (sc : CycleStore × CycleCaches) (ops : List CycleOp) : CycleStore × CycleCaches :=
  ops.foldl applyOp sc

/-- What `dispatch` throws: the rethrown `processingError`, or the collected
non-empty list of listener errors (source lines 416-421). -/
inductive DispatchThrow where
  | processing (e : JsError)
  | postProcessing (es : List JsError)

/-- The end of a dispatch cycle (source lines 384-421): reset every cached
condition and every cached epic with `shouldUpdate = !processingError`;
when undo is enabled and the cycle committed, push the cycle's undo entry
— evicting the oldest entry exactly when the stack length equals
`maxUndoStack` — and clear the redo stack; finally rethrow the processing
error if any, else throw the collected listener errors if non-empty.
`postProcessingErrors` is computed by `processEpicListeners` before this
phase (source line 388). -/
def dispatchFinalize (undo : Bool) (maxUndoStack : Nat) (processingError : Option JsError)
    (postProcessingErrors : List JsError) (undoEntry : UndoEntry)
    (caches : CycleCaches) (s : CycleStore) : CycleStore × Except DispatchThrow Unit :=
  let conds := caches.conditionCache.foldl
    (fun cs i => setCondAt cs i (resetCondition processingError.isNone)) s.conds
  let epics := caches.epicCache.foldl
    (fun es name => updateEpic es name fun e => resetEpic e processingError.isNone) s.epics
  let stackPair : List UndoEntry × List UndoEntry :=
    if undo && processingError.isNone then
      ((if s.undoStack.length = maxUndoStack then s.undoStack.tail else s.undoStack) ++ [undoEntry],
       [])
    else (s.undoStack, s.redoStack)
  let sOut : CycleStore :=
    { epics := epics, conds := conds, undoStack := stackPair.1, redoStack := stackPair.2 }
  (sOut,
   match processingError with
   | some e => .error (.processing e)
   | none =>
     if postProcessingErrors.isEmpty then .ok ()
     else .error (.postProcessing postProcessingErrors))

/-- `handleChange` (source lines 447-463): pop the newest entry from one
stack, walk it applying `entry[epicName][id][key]` as a function to each
instance's state, then push the entry onto the other stack.  On an empty
stack `from.pop()` yields `undefined` and `Object.keys(entry)` throws a
`TypeError`; on an entry recorded by `makeHandleUpdate` the value at
`entry[epicName][id][key]` (for `key` one of `undo`/`redo`) is not a
function — the patch pairs sit under the entity keys `state`/`scope` —
so the call throws a `TypeError` as well.  Stack mutation on the throwing
paths is not tracked. -/
def handleChange (epics : List (String × EpicInst)) (fromStack toStack : List UndoEntry)
    (key : String) :
    Except JsError (List (String × EpicInst) × List UndoEntry × List UndoEntry) :=
  match fromStack.getLast? with
  | none => .error (.typeError "Cannot convert undefined or null to object")
  | some entry =>
    if entry.all (fun p => p.2.isEmpty) then
      .ok (epics, fromStack.dropLast, toStack ++ [entry])
    else .error (.typeError "entry[epicName][id][key] is not a function")

/-- The two bounded history stacks. -/
structure Stacks where
  undoStack : List UndoEntry
  redoStack : List UndoEntry

/-- The operations that touch the history stacks: a committing dispatch cycle
with undo enabled (source lines 405-411), and `undo`/`redo` (source lines
448 and 461).  Modelled from the spec for the transfer completed by
`undo`/`redo`: the snapshot's `handleChange` throws between its `pop` and
its `push` (see `handleChange`), while spec 4.H has the popped entry
pushed onto the opposite stack, and spec 8 makes both no-ops on an empty
stack. -/
inductive StackOp where
  | commit (entry : UndoEntry)
  | undoOp
  | redoOp

/-- Move the newest entry of one stack onto the other; identity when the
source stack is empty. -/
def moveTop (fromStack toStack : List UndoEntry) : List UndoEntry × List UndoEntry :=
  match fromStack.getLast? with
  | none => (fromStack, toStack)
  | some e => (fromStack.dropLast, toStack ++ [e])

/-- The committing push of source lines 405-411: evict the oldest entry
exactly when the length equals `maxUndoStack`, push the cycle's entry,
clear the redo stack. -/
def pushCommit (maxUndoStack : Nat) (entry : UndoEntry) (s : Stacks) : Stacks :=
  { undoStack :=
      (if s.undoStack.length = maxUndoStack then s.undoStack.tail else s.undoStack) ++ [entry],
    redoStack := [] }

def applyStackOp (maxUndoStack : Nat) (s : Stacks) : StackOp → Stacks
  | .commit entry => pushCommit maxUndoStack entry s
  | .undoOp =>
    let m := moveTop s.undoStack s.redoStack
    { undoStack := m.1, redoStack := m.2 }
  | .redoOp =>
    let m := moveTop s.redoStack s.undoStack
    { undoStack := m.2, redoStack := m.1 }

def runStackOps (maxUndoStack : Nat) (s : Stacks) (ops : List StackOp) : Stacks :=
  ops.foldl (applyStackOp maxUndoStack) s

/-- The programming errors `store.register` can throw (source lines 18, 22,
101, 110). -/
inductive RegError where
  | duplicateEpic (name : String)
  | invalidConditionType (name : String)
  | invalidConditionSelector (name : String)
  | noPassiveUpdaters (name : String)
deriving Repr, DecidableEq

/-- The `selector` field of a raw condition object: either a function or a
non-function value (the latter trips `invalidConditionSelector` when
truthy and is ignored when falsy, since the source tests
`if (condition.selector)` before the invariant). -/
inductive SelectorSpec where
  | fn (f : Val → String → Val)
  | notFn (v : Val)

/-- A raw condition as accepted by `processCondition` (source lines 8-15): a
bare string, a condition object whose `type` may be any value, or an array
(an `anyOf` disjunction, possibly nested). -/
inductive InCond where
  | strc (s : String)
  | objc (type : Val) (selector : Option SelectorSpec) (value : Option Val)
      (passive : Bool) (required : Bool)
  | arr (cs : List InCond)

compile_inductive% InCond

/-- The result of `processCondition` on one raw condition: a compiled
condition, or an array of results for an `anyOf` input. -/
inductive PCondT where
  | leaf (c : Cond)
  | arr (cs : List PCondT)

compile_inductive% PCondT

/-- `processCondition` mapped over a condition list (source lines 8-33, 108).
A bare string becomes `{type}`; a non-string `type` throws
`invalidConditionType`; a truthy non-function `selector` throws
`invalidConditionSelector`, a missing (or falsy) one defaults to the
identity; a missing `value` defaults to the `initialValue` sentinel.
Fuelled so that every equation is structural; the fuel only limits
`anyOf` nesting depth and the wrapper always supplies enough. -/
def processCondsGo (name : String) : Nat → List InCond → Except RegError (List PCondT)
  | _, [] => .ok []
  | 0, _ :: _ => .error (.invalidConditionType name)
  | fuel + 1, c :: cs => do
    let h : PCondT ←
      (match c with
       | .strc s =>
         .ok (.leaf { type := s, passive := false, required := false,
                      value := initialValue, _value := none, matchedPattern := false,
                      selector := idSelector })
       | .objc t sel v passive required =>
         match t with
         | .str s =>
           match sel with
           | some (.fn f) =>
             .ok (.leaf { type := s, passive := passive, required := required,
                          value := v.getD initialValue, _value := none,
                          matchedPattern := false, selector := f })
           | some (.notFn w) =>
             if jsTruthy w then .error (.invalidConditionSelector name)
             else
               .ok (.leaf { type := s, passive := passive, required := required,
                            value := v.getD initialValue, _value := none,
                            matchedPattern := false, selector := idSelector })
           | none =>
             .ok (.leaf { type := s, passive := passive, required := required,
                          value := v.getD initialValue, _value := none,
                          matchedPattern := false, selector := idSelector })
         | _ => .error (.invalidConditionType name)
       | .arr inner => (processCondsGo name fuel inner).map PCondT.arr)
    let t ← processCondsGo name fuel cs
    .ok (h :: t)

/-- `conditions.map(processCondition.bind(null, currentError))` for one
updater's condition list. -/
def processConditions (name : String) (cs : List InCond) : Except RegError (List PCondT) :=
  processCondsGo name (sizeOf cs) cs

/-- Index and contents of the first array element of a condition vector (the
`conditions.some` scan of source lines 37-46). -/
def firstArrIdx : List PCondT → Option (Nat × List PCondT)
  | [] => none
  | .arr cs :: _ => some (0, cs)
  | .leaf _ :: rest => (firstArrIdx rest).map fun p => (p.1 + 1, p.2)

/-- `splitConditions` (source lines 35-49): find the first array element, and
for each of its members substitute the member at that index and recurse on
the whole vector, concatenating the results; with no array element the
vector itself is the only split.  An empty array element yields the vector
unchanged (`conditionsList` stays empty).  Fuelled so that every equation
is structural; each recursion replaces an array element by one of its
members, strictly shrinking `sizeOf`, so the wrapper's fuel is always
sufficient. -/
def splitConditionsGo : Nat → List PCondT → List (List PCondT)
  | 0, conditions => [conditions]
  | fuel + 1, conditions =>
    match firstArrIdx conditions with
    | none => [conditions]
    | some (i, cs) =>
      let L := (cs.map fun c => splitConditionsGo fuel (conditions.set i c)).flatten
      if L.isEmpty then [conditions] else L

def splitConditions (conditions : List PCondT) : List (List PCondT) :=
  splitConditionsGo (sizeOf conditions) conditions

/-- The truthiness of `!passive` in `conditions.find(({ passive }) =>
!passive)` (source line 110): a leaf is found when not passive; an array
element destructures to `passive = undefined`, hence is found. -/
def nonPassiveish : PCondT → Bool
  | .leaf c => !c.passive
  | .arr _ => true

/-- The registry key a condition contributes under (source line 113): a
leaf's `type`; an array element's `type` is `undefined`, which JavaScript
stringifies to the property key `"undefined"`. -/
def condType : PCondT → String
  | .leaf c => c.type
  | .arr _ => "undefined"

/-- A registered updater as pushed into the registries (source line 112;
the handler reference is not modelled). -/
structure RUpdater where
  epic : String
  conditions : List PCondT
  index : Nat

/-- A registered epic (singleton form). -/
structure REpic where
  state : Val
  scope : Val
  updaters : List (List RUpdater)

/-- The observable registration state of a store: `epicRegistry`,
`updaterRegistry` and `patternRegistry` (source lines 84-87). -/
structure Registries where
  epicRegistry : List (String × REpic)
  updaterRegistry : List (String × List RUpdater)
  patternRegistry : List (String × List RUpdater)

def emptyRegistries : Registries :=
  { epicRegistry := [], updaterRegistry := [], patternRegistry := [] }

/-- Push an updater for one condition type (source lines 113-120): wildcard
types go to `patternRegistry` when patterns are enabled, everything else
to `updaterRegistry`. -/
def pushType (patterns : Bool) (t : String) (u : RUpdater) (regs : Registries) : Registries :=
  if patterns && t.contains '*' then
    { regs with patternRegistry :=
        match regs.patternRegistry.lookup t with
        | some us => regs.patternRegistry.map fun p => if p.1 = t then (p.1, p.2 ++ [u]) else p
        | none => regs.patternRegistry ++ [(t, [u])] }
  else
    { regs with updaterRegistry :=
        match regs.updaterRegistry.lookup t with
        | some us => regs.updaterRegistry.map fun p => if p.1 = t then (p.1, p.2 ++ [u]) else p
        | none => regs.updaterRegistry ++ [(t, [u])] }

/-- The loop over one updater's split condition vectors (source lines
109-123): for each vector first check that some condition is non-passive
— throwing `noPassiveUpdaters` with the registries as already mutated by
earlier vectors — then push the updater under each condition's type. -/
def registerSplitsLoop (patterns : Bool) (name : String) (index : Nat) :
    List (List PCondT) → Registries → Registries × Except RegError (List RUpdater)
  | [], regs => (regs, .ok [])
  | conditions :: rest, regs =>
    if conditions.any nonPassiveish then
      let u : RUpdater := { epic := name, conditions := conditions, index := index }
      let regs1 := conditions.foldl (fun r c => pushType patterns (condType c) u r) regs
      match registerSplitsLoop patterns name index rest regs1 with
      | (regs2, .ok us) => (regs2, .ok (u :: us))
      | (regs2, .error e) => (regs2, .error e)
    else (regs, .error (.noPassiveUpdaters name))

/-- Processing of one raw updater during registration (source lines 106-124):
compile its conditions — an invalid condition throws before this updater
pushes anything, but after earlier updaters already pushed — then split
and register each vector. -/
def registerUpdater (patterns : Bool) (name : String) (index : Nat) (cs : List InCond)
    (regs : Registries) : Registries × Except RegError (List RUpdater) :=
  match processConditions name cs with
  | .error e => (regs, .error e)
  | .ok pcs => registerSplitsLoop patterns name index (splitConditions pcs) regs

/-- The `updaters.map` fold of `store.register`. -/
def registerUpdatersLoop (patterns : Bool) (name : String) :
    Nat → List (List InCond) → Registries → Registries × Except RegError (List (List RUpdater))
  | _, [], regs => (regs, .ok [])
  | index, u :: rest, regs =>
    let r1 := registerUpdater patterns name index u regs
    match r1.2 with
    | .error e => (r1.1, .error e)
    | .ok us =>
      let r2 := registerUpdatersLoop patterns name (index + 1) rest r1.1
      match r2.2 with
      | .ok uss => (r2.1, .ok (us :: uss))
      | .error e => (r2.1, .error e)

/-- The raw argument of `store.register` (singleton form; handlers are not
modelled). -/
structure EpicInput where
  name : String
  state : Val
  scope : Val
  updaters : List (List InCond)

/-- `store.register` (source lines 99-128): reject a duplicate name before
any mutation; evaluate the epic object literal — during which each valid
split vector pushes into the updater/pattern registries and an invalid
condition or an all-passive vector throws, leaving those pushes in place —
and only on success assign `epicRegistry[name]`. -/
def register (patterns : Bool) (regs : Registries) (input : EpicInput) :
    Registries × Option RegError :=
  if (regs.epicRegistry.lookup input.name).isSome then
    (regs, some (.duplicateEpic input.name))
  else
    let r := registerUpdatersLoop patterns input.name 0 input.updaters regs
    match r.2 with
    | .error e => (r.1, some e)
    | .ok compiled =>
      ({ r.1 with epicRegistry :=
          r.1.epicRegistry ++
            [(input.name,
              { state := freeze input.state, scope := freeze input.scope,
                updaters := compiled })] },
       none)

/-- The canonical (committed) part of an epic cell. -/
def canon (e : EpicInst) : Val × Val := (e.state, e.scope)

/-- Spec-side phrasing of a changed condition: it carries a staged `_value`
differing from its committed `value`. -/
def stagedDiffers (c : Cond) : Prop := ∃ v, c._value = some v ∧ v ≠ c.value

instance (c : Cond) : Decidable (stagedDiffers c) :=
  match h : c._value with
  | none => isFalse fun ⟨v, hv, _⟩ => by simp [h] at hv
  | some v =>
    if hv : v = c.value then
      isFalse fun ⟨w, hw, hne⟩ => hne (by rw [h] at hw; cases hw; exact hv)
    else isTrue ⟨v, h, hv⟩

/-- Spec 4.D guard 1 as the claim states it: the triggering condition is
passive and no non-passive condition of the updater has `matchedPattern`
set or a staged `_value` differing from its committed value. -/
def passiveGuardAbandons (activeCondition : Cond) (conditions : List Cond) : Prop :=
  activeCondition.passive = true ∧
    ∀ c ∈ conditions, c.passive = false → c.matchedPattern = false ∧ ¬ stagedDiffers c

instance (activeCondition : Cond) (conditions : List Cond) :
    Decidable (passiveGuardAbandons activeCondition conditions) :=
  inferInstanceAs (Decidable (_ ∧ _))

/-- Spec 4.D guard 2 as the claim states it: every condition of the updater
other than the triggering one is passive, or not required, or
pattern-matched, or changed this cycle. -/
def conjunctionGuardHolds (activeIdx : Nat) (conditions : List Cond) : Prop :=
  ∀ i : Fin conditions.length, i.1 ≠ activeIdx →
    (conditions.get i).passive = true ∨ (conditions.get i).required = false ∨
    (conditions.get i).matchedPattern = true ∨ stagedDiffers (conditions.get i)

instance (activeIdx : Nat) (conditions : List Cond) :
    Decidable (conjunctionGuardHolds activeIdx conditions) :=
  inferInstanceAs (Decidable (∀ _, _))

/-- A concrete compiled condition used by the witness cycles. -/
def wCond1 : Cond :=
  { type := "a1", passive := false, required := false, value := Val.initial,
    _value := none, matchedPattern := false, selector := idSelector }

/-- A concrete one-epic store used by the witness cycles. -/
def wStore1 : CycleStore :=
  { epics := [("e1", { state := Val.num 1, scope := Val.initial, _state := none, _scope := none })],
    conds := [wCond1], undoStack := [], redoStack := [] }

/-- A committing witness cycle: stage state `2` on `e1` and selector value `2`
on condition `0`. -/
def wOpsCommit : List CycleOp :=
  [CycleOp.initStage "e1", CycleOp.stageState "e1" (Val.num 2), CycleOp.setCondValue 0 (Val.num 2)]

/-- A failing witness cycle: the same mutations, staged before the handler
error is caught. -/
def wOpsFail : List CycleOp :=
  [CycleOp.initStage "e1", CycleOp.stageState "e1" (Val.num 9), CycleOp.setCondValue 0 (Val.num 9)]

/-- A handler returning no update (witness fixture). -/
def wHandlerNoop : List Val → HandlerCtx → HandlerUpdate :=
  fun _ _ => { state := none, scope := none, actions := none, passive := false }

/-- A handler staging the state `1`, not passive (witness fixture). -/
def wHandlerState1 : List Val → HandlerCtx → HandlerUpdate :=
  fun _ _ => { state := some (Val.num 1), scope := none, actions := none, passive := false }

/-- A default epic cell (witness fixture). -/
def wInst : EpicInst := { state := Val.num 0, scope := Val.initial, _state := none, _scope := none }

def w7CondA : Cond :=
  { type := "a", passive := false, required := false, value := Val.initial,
    _value := some (Val.num 1), matchedPattern := false, selector := idSelector }

def w7CondB : Cond :=
  { type := "e0", passive := false, required := true, value := Val.initial,
    _value := some (Val.num 2), matchedPattern := false, selector := idSelector }

def w7Updater : Updater :=
  { epic := "e7", conditions := [w7CondA, w7CondB], handler := wHandlerNoop, index := 0 }

def w8Cond : Cond :=
  { type := "E2", passive := false, required := false, value := Val.num 5,
    _value := none, matchedPattern := false, selector := idSelector }

def w8Updater : Updater :=
  { epic := "e8", conditions := [w8Cond], handler := wHandlerNoop, index := 0 }

def w8Action : Action := { type := "E2", payload := Val.num 5 }

def w9Cond (t : String) : Cond :=
  { type := t, passive := false, required := false, value := Val.initial,
    _value := none, matchedPattern := false, selector := idSelector }

def w9Updater (t : String) : Updater :=
  { epic := "e9", conditions := [w9Cond t], handler := wHandlerState1, index := 0 }

def w10Cond : Cond :=
  { type := "e1", passive := false, required := false, value := Val.initial,
    _value := none, matchedPattern := false, selector := idSelector }

/-- A listener that never throws (witness fixture). -/
def w10Ok : Listener := { conditions := [w10Cond], handler := fun _ _ => Except.ok () }

/-- The epic cache of a committed cycle that set `e1` to `2` (witness
fixture). -/
def w10Cache : List (String × Val) := [("e1", Val.num 2)]

/-- The raw `register` argument of the C3 counterexample: a first valid
updater on `"a1"` followed by an updater whose condition `type` is the
number `0`. -/
def c3Input : EpicInput :=
  { name := "E", state := Val.initial, scope := Val.initial,
    updaters := [[InCond.strc "a1"], [InCond.objc (Val.num 0) none none false false]] }

/-
Theorems.  The helper lemmas below characterise the association-list and
fold operations of the embedding; the claim theorems follow them.
-/

theorem didConditionChange_iff (c : Cond) :
    didConditionChange c = true ↔ stagedDiffers c := by
  cases h : c._value with
  | none => simp [didConditionChange, h, stagedDiffers]
  | some v =>
    simp only [didConditionChange, h, Option.isSome_some, Bool.true_and, stagedDiffers]
    constructor
    · intro hne
      exact ⟨v, rfl, by simpa using hne⟩
    · rintro ⟨w, hw, hne⟩
      cases hw
      simpa using hne

theorem lookupEpic_updateEpic (es : List (String × EpicInst)) (n name : String)
    (f : EpicInst → EpicInst) :
    lookupEpic (updateEpic es n f) name =
      if n = name then (lookupEpic es name).map f else lookupEpic es name := by
  induction es with
  | nil => simp [updateEpic, lookupEpic]
  | cons p rest ih =>
    obtain ⟨k, e⟩ := p
    by_cases hkn : k = n
    · have hcase : updateEpic ((k, e) :: rest) n f = (k, f e) :: updateEpic rest n f := by
        simp [updateEpic, hkn]
      by_cases hkname : k = name
      · subst hkn; subst hkname
        rw [hcase]
        simp [lookupEpic]
      · rw [hcase]
        simp only [lookupEpic, if_neg hkname]
        rw [ih]
    · have hcase : updateEpic ((k, e) :: rest) n f = (k, e) :: updateEpic rest n f := by
        simp [updateEpic, hkn]
      rw [hcase]
      by_cases hkname : k = name
      · have hnname : ¬ n = name := fun h => hkn (h.symm ▸ hkname : k = n)
        simp only [lookupEpic, if_pos hkname, if_neg hnname]
      · simp only [lookupEpic, if_neg hkname]
        rw [ih]

theorem foldl_updateEpic_canon (g : EpicInst → EpicInst) (hg : ∀ e, canon (g e) = canon e)
    (names : List String) (es : List (String × EpicInst)) (name : String) :
    (lookupEpic (names.foldl (fun acc n => updateEpic acc n g) es) name).map canon =
      (lookupEpic es name).map canon := by
  induction names generalizing es with
  | nil => rfl
  | cons n rest ih =>
    simp only [List.foldl_cons]
    rw [ih, lookupEpic_updateEpic]
    by_cases h : n = name
    · simp only [h, if_pos rfl]
      cases lookupEpic es name with
      | none => rfl
      | some e => simp [hg]
    · simp [h]

theorem foldl_updateEpic_notmem (g : EpicInst → EpicInst) (names : List String)
    (name : String) :
    ∀ es : List (String × EpicInst), name ∉ names →
      lookupEpic (names.foldl (fun acc n => updateEpic acc n g) es) name =
        lookupEpic es name := by
  induction names with
  | nil => intro es _; rfl
  | cons n rest ih =>
    intro es h
    simp only [List.mem_cons, not_or] at h
    have hne : ¬ n = name := fun hn => h.1 hn.symm
    simp only [List.foldl_cons]
    rw [ih (updateEpic es n g) h.2, lookupEpic_updateEpic, if_neg hne]

theorem foldl_updateEpic_mem (g : EpicInst → EpicInst) (names : List String)
    (name : String) :
    ∀ es : List (String × EpicInst), names.Nodup → name ∈ names →
      lookupEpic (names.foldl (fun acc n => updateEpic acc n g) es) name =
        (lookupEpic es name).map g := by
  induction names with
  | nil => intro es _ h; cases h
  | cons n rest ih =>
    intro es hnd hmem
    simp only [List.nodup_cons] at hnd
    simp only [List.foldl_cons]
    rcases List.mem_cons.mp hmem with h | h
    · subst h
      rw [foldl_updateEpic_notmem g rest name (updateEpic es name g) hnd.1,
        lookupEpic_updateEpic, if_pos rfl]
    · rw [ih (updateEpic es n g) hnd.2 h, lookupEpic_updateEpic]
      have hne : ¬ n = name := fun hn => hnd.1 (hn ▸ h)
      rw [if_neg hne]

theorem setCondAt_get?_self (cs : List Cond) (i : Nat) (g : Cond → Cond) :
    (setCondAt cs i g).get? i = (cs.get? i).map g := by
  unfold setCondAt
  cases h : cs.get? i with
  | none =>
    simp [h]
    exact List.get?_eq_none.mp h
  | some c =>
    have hlt : i < cs.length := by
      rcases List.get?_eq_some.mp h with ⟨hl, _⟩
      exact hl
    have := List.getElem?_set_self (l := cs) (i := i) (a := g c) hlt
    simp only [List.get?_eq_getElem?] at h ⊢
    simp [this, h]

theorem setCondAt_get?_ne (cs : List Cond) (i j : Nat) (g : Cond → Cond) (h : i ≠ j) :
    (setCondAt cs i g).get? j = cs.get? j := by
  unfold setCondAt
  cases hc : cs.get? i with
  | none => rfl
  | some c =>
    simp only [List.get?_eq_getElem?] at *
    exact List.getElem?_set_ne h

theorem resetCondition_idem (b : Bool) (c : Cond) :
    resetCondition b (resetCondition b c) = resetCondition b c := by
  cases hv : c._value <;> cases b <;> simp [resetCondition, hv]

theorem foldl_resetCondAt_notmem (b : Bool) (idxs : List Nat) (i : Nat) :
    ∀ cs : List Cond, i ∉ idxs →
      ((idxs.foldl (fun acc j => setCondAt acc j (resetCondition b)) cs).get? i) = cs.get? i := by
  induction idxs with
  | nil => intro cs _; rfl
  | cons j rest ih =>
    intro cs h
    simp only [List.mem_cons, not_or] at h
    simp only [List.foldl_cons]
    rw [ih (setCondAt cs j (resetCondition b)) h.2,
      setCondAt_get?_ne cs j i (resetCondition b) (fun hj => h.1 hj.symm)]

theorem foldl_resetCondAt_mem (b : Bool) (idxs : List Nat) (i : Nat) :
    ∀ cs : List Cond, i ∈ idxs →
      ((idxs.foldl (fun acc j => setCondAt acc j (resetCondition b)) cs).get? i) =
        (cs.get? i).map (resetCondition b) := by
  induction idxs with
  | nil => intro cs h; cases h
  | cons j rest ih =>
    intro cs hmem
    simp only [List.foldl_cons]
    by_cases hij : i ∈ rest
    · rw [ih (setCondAt cs j (resetCondition b)) hij]
      by_cases hj : j = i
      · subst hj
        rw [setCondAt_get?_self]
        cases cs.get? j with
        | none => rfl
        | some c => simp [resetCondition_idem]
      · rw [setCondAt_get?_ne cs j i (resetCondition b) hj]
    · have hji : j = i := by
        rcases List.mem_cons.mp hmem with h | h
        · exact h.symm
        · exact absurd h hij
      subst hji
      rw [foldl_resetCondAt_notmem b rest j (setCondAt cs j (resetCondition b)) hij,
        setCondAt_get?_self]

theorem runOps_epics_canon (ops : List CycleOp) :
    ∀ sc : CycleStore × CycleCaches, ∀ name : String,
      (lookupEpic (runOps sc ops).1.epics name).map canon =
        (lookupEpic sc.1.epics name).map canon := by
  induction ops with
  | nil => intro sc name; rfl
  | cons op rest ih =>
    intro sc name
    show (lookupEpic (runOps (applyOp sc op) rest).1.epics name).map canon = _
    rw [ih (applyOp sc op) name]
    cases op with
    | initStage n =>
      simp only [applyOp]
      rw [lookupEpic_updateEpic]
      by_cases h : n = name
      · subst h
        cases lookupEpic sc.1.epics n with
        | none => simp
        | some e => simp [canon, stageInit]
      · simp [h]
    | stageState n v =>
      simp only [applyOp]
      rw [lookupEpic_updateEpic]
      by_cases h : n = name
      · subst h
        cases lookupEpic sc.1.epics n with
        | none => simp
        | some e => simp [canon]
      · simp [h]
    | stageScope n v =>
      simp only [applyOp]
      rw [lookupEpic_updateEpic]
      by_cases h : n = name
      · subst h
        cases lookupEpic sc.1.epics n with
        | none => simp
        | some e => simp [canon]
      · simp [h]
    | setCondValue i v => rfl
    | setMatched i => rfl

theorem runOps_conds_value (ops : List CycleOp) :
    ∀ sc : CycleStore × CycleCaches, ∀ i : Nat,
      ((runOps sc ops).1.conds.get? i).map (fun c => c.value) =
        (sc.1.conds.get? i).map (fun c => c.value) := by
  induction ops with
  | nil => intro sc i; rfl
  | cons op rest ih =>
    intro sc i
    show ((runOps (applyOp sc op) rest).1.conds.get? i).map _ = _
    rw [ih (applyOp sc op) i]
    cases op with
    | initStage n => rfl
    | stageState n v => rfl
    | stageScope n v => rfl
    | setCondValue j v =>
      simp only [applyOp]
      by_cases hj : j = i
      · subst hj
        rw [setCondAt_get?_self]
        cases sc.1.conds.get? j with
        | none => rfl
        | some c => rfl
      · rw [setCondAt_get?_ne _ _ _ _ hj]
    | setMatched j =>
      simp only [applyOp]
      by_cases hj : j = i
      · subst hj
        rw [setCondAt_get?_self]
        cases sc.1.conds.get? j with
        | none => rfl
        | some c => rfl
      · rw [setCondAt_get?_ne _ _ _ _ hj]

theorem runOps_stacks (ops : List CycleOp) :
    ∀ sc : CycleStore × CycleCaches,
      (runOps sc ops).1.undoStack = sc.1.undoStack ∧
        (runOps sc ops).1.redoStack = sc.1.redoStack := by
  induction ops with
  | nil => intro sc; exact ⟨rfl, rfl⟩
  | cons op rest ih =>
    intro sc
    refine ⟨?_, ?_⟩
    · show (runOps (applyOp sc op) rest).1.undoStack = sc.1.undoStack
      rw [(ih (applyOp sc op)).1]
      cases op <;> rfl
    · show (runOps (applyOp sc op) rest).1.redoStack = sc.1.redoStack
      rw [(ih (applyOp sc op)).2]
      cases op <;> rfl

theorem runOps_epicCache_nodup (ops : List CycleOp) :
    ∀ sc : CycleStore × CycleCaches, sc.2.epicCache.Nodup →
      (runOps sc ops).2.epicCache.Nodup := by
  induction ops with
  | nil => intro sc h; exact h
  | cons op rest ih =>
    intro sc h
    refine ih (applyOp sc op) ?_
    cases op with
    | initStage n =>
      simp only [applyOp]
      by_cases hn : n ∈ sc.2.epicCache
      · simpa [hn] using h
      · simp only [if_neg hn]
        rw [List.nodup_append]
        exact ⟨h, List.nodup_singleton n, by simpa [List.disjoint_singleton] using hn⟩
    | stageState n v => exact h
    | stageScope n v => exact h
    | setCondValue i v => exact h
    | setMatched i => exact h

theorem runOps_conditionCache_bound (ops : List CycleOp) :
    ∀ sc : CycleStore × CycleCaches,
      (runOps sc ops).1.conds.length = sc.1.conds.length := by
  induction ops with
  | nil => intro sc; rfl
  | cons op rest ih =>
    intro sc
    show (runOps (applyOp sc op) rest).1.conds.length = _
    rw [ih (applyOp sc op)]
    cases op with
    | initStage n => rfl
    | stageState n v => rfl
    | stageScope n v => rfl
    | setCondValue j v =>
      simp only [applyOp, setCondAt]
      cases sc.1.conds.get? j <;> simp
    | setMatched j =>
      simp only [applyOp, setCondAt]
      cases sc.1.conds.get? j <;> simp

theorem foldl_resetCondAt_value (idxs : List Nat) (cs : List Cond) (i : Nat) :
    ((idxs.foldl (fun acc j => setCondAt acc j (resetCondition false)) cs).get? i).map
        (fun c => c.value) =
      (cs.get? i).map (fun c => c.value) := by
  by_cases h : i ∈ idxs
  · rw [foldl_resetCondAt_mem false idxs i cs h]
    cases hc : cs.get? i with
    | none => rfl
    | some c => simp [resetCondition]
  · rw [foldl_resetCondAt_notmem false idxs i cs h]

/-- C1: for every dispatch cycle that completes without a processing error,
the commit phase promotes the staged values to canonical ones: every
condition in the cycle's `conditionCache` gets `value := _value`, and
every epic instance recorded in the cycle's `epicCache` gets
`state := _state` and `scope := _scope`, so that after `dispatch` returns
each touched epic's canonical state equals the last staged state produced
by its handlers during that cycle. -/
theorem commit_promotes_staged_state
    (ops : List CycleOp) (s0 : CycleStore) (undo : Bool) (maxUndoStack : Nat)
    (postErrs : List JsError) (entry : UndoEntry)
    (name : String) (inst1 : EpicInst) (v w : Val)
    (hlook : lookupEpic (runOps (s0, emptyCaches) ops).1.epics name = some inst1)
    (hmem : name ∈ (runOps (s0, emptyCaches) ops).2.epicCache)
    (hst : inst1._state = some v) (hsc : inst1._scope = some w) :
    lookupEpic (dispatchFinalize undo maxUndoStack none postErrs entry
        (runOps (s0, emptyCaches) ops).2 (runOps (s0, emptyCaches) ops).1).1.epics name =
      some { state := v, scope := w, _state := none, _scope := none } ∧
    (∀ i c x, i ∈ (runOps (s0, emptyCaches) ops).2.conditionCache →
      (runOps (s0, emptyCaches) ops).1.conds.get? i = some c → c._value = some x →
      ((dispatchFinalize undo maxUndoStack none postErrs entry
          (runOps (s0, emptyCaches) ops).2 (runOps (s0, emptyCaches) ops).1).1.conds.get? i).map
        (fun cc => cc.value) = some x) := by
  have hnd : (runOps (s0, emptyCaches) ops).2.epicCache.Nodup :=
    runOps_epicCache_nodup ops (s0, emptyCaches) (by simp [emptyCaches])
  constructor
  · show lookupEpic
        ((runOps (s0, emptyCaches) ops).2.epicCache.foldl
          (fun acc n => updateEpic acc n fun e => resetEpic e true)
          (runOps (s0, emptyCaches) ops).1.epics) name = _
    rw [foldl_updateEpic_mem (fun e => resetEpic e true)
        (runOps (s0, emptyCaches) ops).2.epicCache name
        (runOps (s0, emptyCaches) ops).1.epics hnd hmem, hlook]
    simp [resetEpic, hst, hsc]
  · intro i c x hi hc hx
    show (((runOps (s0, emptyCaches) ops).2.conditionCache.foldl
          (fun acc j => setCondAt acc j (resetCondition true))
          (runOps (s0, emptyCaches) ops).1.conds).get? i).map (fun cc => cc.value) = some x
    rw [foldl_resetCondAt_mem true (runOps (s0, emptyCaches) ops).2.conditionCache i
        (runOps (s0, emptyCaches) ops).1.conds hi, hc]
    simp [resetCondition, hx]

theorem commit_promotes_staged_state_witness :
    lookupEpic (dispatchFinalize false 10 none [] []
        (runOps (wStore1, emptyCaches) wOpsCommit).2
        (runOps (wStore1, emptyCaches) wOpsCommit).1).1.epics "e1" =
      some { state := Val.num 2, scope := Val.initial, _state := none, _scope := none } ∧
    ((dispatchFinalize false 10 none [] []
        (runOps (wStore1, emptyCaches) wOpsCommit).2
        (runOps (wStore1, emptyCaches) wOpsCommit).1).1.conds.get? 0).map
      (fun cc => cc.value) = some (Val.num 2) := by
  have h := commit_promotes_staged_state wOpsCommit wStore1 false 10 [] [] "e1"
    { state := Val.num 1, scope := Val.initial,
      _state := some (Val.num 2), _scope := some Val.initial }
    (Val.num 2) Val.initial rfl (by decide) rfl rfl
  exact ⟨h.1, h.2 0
    { wCond1 with _value := some (Val.num 2) } (Val.num 2) (by decide) rfl rfl⟩

/-- C2: for every dispatch cycle in which a reducer handler (or the pump)
throws: after the cleanup phase the canonical state and scope of every
registered epic equal their pre-cycle values, every condition's committed
value is unchanged (the staged `_value` is discarded, not promoted), the
undo and redo stacks are unchanged, and the original error is rethrown
only after this cleanup. -/
theorem processing_error_rolls_back
    (ops : List CycleOp) (s0 : CycleStore) (err : JsError) (undo : Bool) (maxUndoStack : Nat)
    (postErrs : List JsError) (entry : UndoEntry) :
    (∀ name e0, lookupEpic s0.epics name = some e0 →
      (lookupEpic (dispatchFinalize undo maxUndoStack (some err) postErrs entry
          (runOps (s0, emptyCaches) ops).2 (runOps (s0, emptyCaches) ops).1).1.epics name).map
        canon = some (e0.state, e0.scope)) ∧
    (∀ i c0, s0.conds.get? i = some c0 →
      ((dispatchFinalize undo maxUndoStack (some err) postErrs entry
          (runOps (s0, emptyCaches) ops).2 (runOps (s0, emptyCaches) ops).1).1.conds.get? i).map
        (fun c => c.value) = some c0.value) ∧
    (dispatchFinalize undo maxUndoStack (some err) postErrs entry
        (runOps (s0, emptyCaches) ops).2 (runOps (s0, emptyCaches) ops).1).1.undoStack =
      s0.undoStack ∧
    (dispatchFinalize undo maxUndoStack (some err) postErrs entry
        (runOps (s0, emptyCaches) ops).2 (runOps (s0, emptyCaches) ops).1).1.redoStack =
      s0.redoStack ∧
    (dispatchFinalize undo maxUndoStack (some err) postErrs entry
        (runOps (s0, emptyCaches) ops).2 (runOps (s0, emptyCaches) ops).1).2 =
      Except.error (DispatchThrow.processing err) := by
  refine ⟨?_, ?_, ?_, ?_, rfl⟩
  · intro name e0 h0
    show (lookupEpic
        ((runOps (s0, emptyCaches) ops).2.epicCache.foldl
          (fun acc n => updateEpic acc n fun e => resetEpic e false)
          (runOps (s0, emptyCaches) ops).1.epics) name).map canon = _
    rw [foldl_updateEpic_canon (fun e => resetEpic e false)
        (fun e => by simp [canon, resetEpic])]
    rw [runOps_epics_canon ops (s0, emptyCaches) name, h0]
    rfl
  · intro i c0 h0
    show (((runOps (s0, emptyCaches) ops).2.conditionCache.foldl
          (fun acc j => setCondAt acc j (resetCondition false))
          (runOps (s0, emptyCaches) ops).1.conds).get? i).map (fun c => c.value) = _
    rw [foldl_resetCondAt_value, runOps_conds_value ops (s0, emptyCaches) i, h0]
    rfl
  · show (if undo && (some err).isNone then _ else
        ((runOps (s0, emptyCaches) ops).1.undoStack, (runOps (s0, emptyCaches) ops).1.redoStack)).1
        = s0.undoStack
    rw [if_neg (by simp)]
    exact (runOps_stacks ops (s0, emptyCaches)).1
  · show (if undo && (some err).isNone then _ else
        ((runOps (s0, emptyCaches) ops).1.undoStack, (runOps (s0, emptyCaches) ops).1.redoStack)).2
        = s0.redoStack
    rw [if_neg (by simp)]
    exact (runOps_stacks ops (s0, emptyCaches)).2

theorem processing_error_rolls_back_witness :
    (lookupEpic (dispatchFinalize true 10 (some (JsError.thrown (Val.num 7))) [] []
        (runOps (wStore1, emptyCaches) wOpsFail).2
        (runOps (wStore1, emptyCaches) wOpsFail).1).1.epics "e1").map canon =
      some (Val.num 1, Val.initial) ∧
    ((dispatchFinalize true 10 (some (JsError.thrown (Val.num 7))) [] []
        (runOps (wStore1, emptyCaches) wOpsFail).2
        (runOps (wStore1, emptyCaches) wOpsFail).1).1.conds.get? 0).map
      (fun c => c.value) = some Val.initial ∧
    (dispatchFinalize true 10 (some (JsError.thrown (Val.num 7))) [] []
        (runOps (wStore1, emptyCaches) wOpsFail).2
        (runOps (wStore1, emptyCaches) wOpsFail).1).1.undoStack = [] ∧
    (dispatchFinalize true 10 (some (JsError.thrown (Val.num 7))) [] []
        (runOps (wStore1, emptyCaches) wOpsFail).2
        (runOps (wStore1, emptyCaches) wOpsFail).1).2 =
      Except.error (DispatchThrow.processing (JsError.thrown (Val.num 7))) := by
  have h := processing_error_rolls_back wOpsFail wStore1 (JsError.thrown (Val.num 7))
    true 10 [] []
  refine ⟨?_, ?_, ?_, h.2.2.2.2⟩
  · have := h.1 "e1"
      { state := Val.num 1, scope := Val.initial, _state := none, _scope := none } rfl
    simpa using this
  · have := h.2.1 0 wCond1 rfl
    simpa [wCond1] using this
  · have := h.2.2.1
    simpa [wStore1] using this

/-- C4 (evaluation of the code at the failing inputs): `undo()` — that is,
`handleChange(undoStack, redoStack, 'undo')` — throws a `TypeError` on an
empty `undoStack` (`from.pop()` yields `undefined` and `Object.keys`
throws) instead of being a no-op, and also throws on any entry recorded
by `makeHandleUpdate` (the patch pairs sit under the entity keys
`state`/`scope`, so `entry[epicName][id][key]` with `key = 'undo'` is not
callable), so the undo/redo round trips of the claim never complete. -/
theorem undo_on_snapshot_throws :
    handleChange [] [] [] "undo" =
      Except.error (JsError.typeError "Cannot convert undefined or null to object") ∧
    handleChange
        [("e1", { state := Val.num 1, scope := Val.initial, _state := none, _scope := none })]
        [[("e1", [("id1", [("state", { undo := Val.num 0, redo := Val.num 1 })])])]]
        [] "undo" =
      Except.error (JsError.typeError "entry[epicName][id][key] is not a function") :=
  ⟨rfl, rfl⟩

theorem applyStackOp_bound (maxUndoStack : Nat) (hM : 1 ≤ maxUndoStack) (s : Stacks)
    (op : StackOp)
    (h : s.undoStack.length + s.redoStack.length ≤ maxUndoStack) :
    (applyStackOp maxUndoStack s op).undoStack.length +
      (applyStackOp maxUndoStack s op).redoStack.length ≤ maxUndoStack := by
  cases op with
  | commit entry =>
    simp only [applyStackOp, pushCommit]
    by_cases hlen : s.undoStack.length = maxUndoStack
    · simp only [if_pos hlen, List.length_append, List.length_tail, List.length_singleton,
        List.length_nil]
      omega
    · simp only [if_neg hlen, List.length_append, List.length_singleton, List.length_nil]
      omega
  | undoOp =>
    simp only [applyStackOp, moveTop]
    cases hl : s.undoStack.getLast? with
    | none => simpa using h
    | some e =>
      have hne : s.undoStack ≠ [] := by
        intro hh
        rw [hh] at hl
        cases hl
      have hpos : 0 < s.undoStack.length := List.length_pos.mpr hne
      simp only [List.length_dropLast, List.length_append]
      simp only [List.length_cons, List.length_nil]
      omega
  | redoOp =>
    simp only [applyStackOp, moveTop]
    cases hl : s.redoStack.getLast? with
    | none => simpa using h
    | some e =>
      have hne : s.redoStack ≠ [] := by
        intro hh
        rw [hh] at hl
        cases hl
      have hpos : 0 < s.redoStack.length := List.length_pos.mpr hne
      simp only [List.length_dropLast, List.length_append]
      simp only [List.length_cons, List.length_nil]
      omega

theorem runStackOps_bound (maxUndoStack : Nat) (hM : 1 ≤ maxUndoStack) (ops : List StackOp) :
    ∀ s : Stacks, s.undoStack.length + s.redoStack.length ≤ maxUndoStack →
      (runStackOps maxUndoStack s ops).undoStack.length +
        (runStackOps maxUndoStack s ops).redoStack.length ≤ maxUndoStack := by
  induction ops with
  | nil => intro s h; exact h
  | cons op rest ih =>
    intro s h
    exact ih (applyStackOp maxUndoStack s op) (applyStackOp_bound maxUndoStack hM s op h)

/-- C5: with undo enabled and `maxUndoStack = M ≥ 1`, after any sequence of
committing dispatches, undos and redos starting from empty stacks the
undo stack holds at most `M` entries: a commit evicts the oldest entry
exactly when the length equals `M` before pushing, and a redo moving a
popped entry back never pushes the length beyond `M`. -/
theorem undoStack_length_bounded (maxUndoStack : Nat) (hM : 1 ≤ maxUndoStack)
    (ops : List StackOp) :
    (runStackOps maxUndoStack { undoStack := [], redoStack := [] } ops).undoStack.length ≤
      maxUndoStack := by
  have h := runStackOps_bound maxUndoStack hM ops { undoStack := [], redoStack := [] }
    (by simp)
  omega

theorem undoStack_length_bounded_witness :
    1 ≤ 2 ∧
    (runStackOps 2 { undoStack := [], redoStack := [] }
        [StackOp.commit [], StackOp.commit [], StackOp.commit [],
         StackOp.undoOp, StackOp.redoOp]).undoStack.length ≤ 2 :=
  ⟨by decide,
   undoStack_length_bounded 2 (by decide)
     [StackOp.commit [], StackOp.commit [], StackOp.commit [],
      StackOp.undoOp, StackOp.redoOp]⟩

theorem getRegex_map (P : List Char) (h : ∀ c ∈ P, c ∉ jsMetaChars) :
    getRegexFromPattern P = some (P.map tok) := by
  induction P with
  | nil => rfl
  | cons c cs ih =>
    have hc : c ∉ jsMetaChars := h c (List.mem_cons_self c cs)
    have hcs : ∀ x ∈ cs, x ∉ jsMetaChars := fun x hx => h x (List.mem_cons_of_mem c hx)
    simp [getRegexFromPattern, hc, ih hcs]

theorem rxAcceptGo_eq_wildMatchGo (fuel : Nat) :
    ∀ P T : List Char, (∀ c ∈ P, c ≠ '.') →
      rxAcceptGo fuel (P.map tok) T = wildMatchGo fuel P T := by
  induction fuel with
  | zero => intro P T _; rfl
  | succ fuel ih =>
    intro P T hP
    cases P with
    | nil => rfl
    | cons p ps =>
      have hp : p ≠ '.' := hP p (List.mem_cons_self p ps)
      have hps : ∀ c ∈ ps, c ≠ '.' := fun c hc => hP c (List.mem_cons_of_mem p hc)
      by_cases hstar : p = '*'
      · subst hstar
        have htok : tok '*' = RTok.dotStar := by simp [tok]
        have hmap : RTok.dotStar :: ps.map tok = ('*' :: ps).map tok := by simp [tok]
        cases T with
        | nil =>
          simp only [List.map_cons, htok, rxAcceptGo, wildMatchGo, if_pos rfl]
          rw [ih ps [] hps]
          simp
        | cons t ts =>
          simp only [List.map_cons, htok, rxAcceptGo, wildMatchGo, if_pos rfl]
          rw [ih ps (t :: ts) hps, hmap,
            ih ('*' :: ps) ts (by
              intro c hc
              rcases List.mem_cons.mp hc with h | h
              · subst h; decide
              · exact hps c h)]
          simp
      · have htok : tok p = RTok.lit p := by simp [tok, hstar, hp]
        cases T with
        | nil =>
          simp only [List.map_cons, htok, rxAcceptGo, wildMatchGo, if_neg hstar]
        | cons t ts =>
          simp only [List.map_cons, htok, rxAcceptGo, wildMatchGo, if_neg hstar]
          rw [ih ps ts hps]

theorem wildMatchGo_no_star (fuel : Nat) :
    ∀ P T : List Char, P.length + T.length < fuel → '*' ∉ P →
      (wildMatchGo fuel P T = true ↔ T = P) := by
  induction fuel with
  | zero => intro P T h _; exact absurd h (Nat.not_lt_zero _)
  | succ fuel ih =>
    intro P T hlen hstar
    cases P with
    | nil =>
      cases T <;> simp [wildMatchGo]
    | cons p ps =>
      have hp : ¬ p = '*' := fun h => hstar (h ▸ List.mem_cons_self p ps)
      have hps : '*' ∉ ps := fun h => hstar (List.mem_cons_of_mem p h)
      cases T with
      | nil =>
        simp [wildMatchGo, if_neg hp]
      | cons t ts =>
        have hrec := ih ps ts (by simp only [List.length_cons] at hlen ⊢; omega) hps
        simp only [wildMatchGo, if_neg hp, Bool.and_eq_true, decide_eq_true_eq, hrec,
          List.cons.injEq]
        constructor
        · rintro ⟨h1, h2⟩; exact ⟨h1.symm, h2⟩
        · rintro ⟨h1, h2⟩; exact ⟨h1.symm, h2⟩

/-- C6 (counterexample): the claim makes `*` the only character of a pattern
with meta-meaning, every other character matching only itself; since the
pattern `"a.c"` contains no `*` it would then route only the action type
`"a.c"` — but the regex built by `getRegexFromPattern` leaves `.` an
unescaped metacharacter and routes `"abc"` to `"a.c"`. -/
theorem pattern_dot_is_metacharacter :
    patternTriggers "a.c" "abc" = true ∧ "abc" ≠ "a.c" ∧ '*' ∉ "a.c".toList :=
  ⟨by decide, by decide, by decide⟩

/-- C6 (amended): for patterns whose characters are neither `.` nor another
regex metacharacter, an action type is routed to the pattern exactly when
the anchored wildcard match accepts it — `*` matching any sequence and
every other character matching only itself — and a `*`-free such pattern
routes exactly its own literal text.  Characters with JavaScript regex
meaning (`.` among them) keep that meaning, since the source never
escapes the pattern. -/
theorem patternTriggers_wildcard_semantics (P T : String)
    (hmeta : ∀ c ∈ P.toList, c ∉ jsMetaChars) (hdot : ∀ c ∈ P.toList, c ≠ '.') :
    patternTriggers P T = wildMatch P.toList T.toList ∧
    ('*' ∉ P.toList → (patternTriggers P T = true ↔ T.toList = P.toList)) := by
  have hmain : patternTriggers P T = wildMatch P.toList T.toList := by
    unfold patternTriggers
    rw [getRegex_map P.toList hmeta]
    show rxAccept (P.toList.map tok) T.toList = wildMatch P.toList T.toList
    unfold rxAccept wildMatch
    rw [List.length_map]
    exact rxAcceptGo_eq_wildMatchGo _ P.toList T.toList hdot
  refine ⟨hmain, fun hstar => ?_⟩
  rw [hmain]
  exact wildMatchGo_no_star _ P.toList T.toList (by omega) hstar

theorem patternTriggers_wildcard_semantics_witness :
    patternTriggers "a*" "axy" = wildMatch "a*".toList "axy".toList ∧
    patternTriggers "abc" "abc" = true :=
  ⟨(patternTriggers_wildcard_semantics "a*" "axy" (by decide) (by decide)).1,
   ((patternTriggers_wildcard_semantics "abc" "abc" (by decide) (by decide)).2
      (by decide)).mpr rfl⟩

theorem passiveGuard_bool_iff (activeCondition : Cond) (conditions : List Cond) :
    (activeCondition.passive &&
      !(conditions.any fun condition =>
        !condition.passive && (condition.matchedPattern || didConditionChange condition))) = true ↔
      passiveGuardAbandons activeCondition conditions := by
  rw [Bool.and_eq_true, Bool.not_eq_true']
  unfold passiveGuardAbandons
  constructor
  · rintro ⟨hp, hany⟩
    refine ⟨hp, fun c hc hcp => ?_⟩
    have hnotany : ¬ (conditions.any fun condition =>
        !condition.passive && (condition.matchedPattern || didConditionChange condition)) = true := by
      rw [hany]; simp
    rw [List.any_eq_true] at hnotany
    push_neg at hnotany
    have hcfalse := hnotany c hc
    have hcf : (c.matchedPattern || didConditionChange c) = false := by
      cases hcall : (!c.passive && (c.matchedPattern || didConditionChange c)) with
      | true => exact absurd hcall hcfalse
      | false => simpa [hcp] using hcall
    have hm : c.matchedPattern = false := by
      cases hmp : c.matchedPattern
      · rfl
      · rw [hmp] at hcf; simp at hcf
    refine ⟨hm, fun hdif => ?_⟩
    have hdc : didConditionChange c = true := (didConditionChange_iff c).mpr hdif
    rw [hdc, hm] at hcf
    simp at hcf
  · rintro ⟨hp, hall⟩
    refine ⟨hp, ?_⟩
    by_contra hne
    have hany : (conditions.any fun condition =>
        !condition.passive && (condition.matchedPattern || didConditionChange condition)) = true := by
      cases h : (conditions.any fun condition =>
          !condition.passive && (condition.matchedPattern || didConditionChange condition))
      · exact absurd h hne
      · rfl
    rw [List.any_eq_true] at hany
    obtain ⟨c, hc, hcp⟩ := hany
    simp only [Bool.and_eq_true, Bool.not_eq_true', Bool.or_eq_true, didConditionChange_iff]
      at hcp
    obtain ⟨hcpass, hcor⟩ := hcp
    obtain ⟨hm, hd⟩ := hall c hc hcpass
    rcases hcor with h | h
    · rw [hm] at h; cases h
    · exact hd h

theorem conjunctionGuard_bool_iff (activeIdx : Nat) (conditions : List Cond) :
    (conditions.enum.all fun ic =>
      ic.1 = activeIdx || ic.2.passive || !ic.2.required ||
      ic.2.matchedPattern || didConditionChange ic.2) = true ↔
      conjunctionGuardHolds activeIdx conditions := by
  rw [List.all_eq_true]
  unfold conjunctionGuardHolds
  constructor
  · intro hall i hne
    have hmem : (i.1, conditions.get i) ∈ conditions.enum :=
      List.mk_mem_enum_iff_get?.mpr (List.get?_eq_get i.2)
    have hthis := hall _ hmem
    simp only [Bool.or_eq_true, decide_eq_true_eq, Bool.not_eq_true', didConditionChange_iff]
      at hthis
    tauto
  · intro hspec ic hmem
    obtain ⟨i, c⟩ := ic
    have hg : conditions.get? i = some c := List.mk_mem_enum_iff_get?.mp hmem
    rcases List.get?_eq_some.mp hg with ⟨hlt, hgc⟩
    simp only [Bool.or_eq_true, decide_eq_true_eq, Bool.not_eq_true', didConditionChange_iff]
    by_cases hia : i = activeIdx
    · tauto
    · have hcase := hspec ⟨i, hlt⟩ hia
      rw [hgc] at hcase
      tauto

/-- C7: for every updater evaluated with a triggering condition, the handler
is invoked exactly when neither guard abandons: not (the triggering
condition is passive while no non-passive condition of the updater has
`matchedPattern` or a staged `_value` differing from its committed value),
and every other condition is passive, or not required, or
pattern-matched, or changed this cycle. -/
theorem processUpdater_fires_iff_guards
    (action sourceAction : Action) (inst : EpicInst) (updater : Updater)
    (activeIdx : Nat) (forcePassiveUpdate : Bool) (activeCondition : Cond)
    (hget : updater.conditions.get? activeIdx = some activeCondition) :
    (processUpdater action activeIdx updater forcePassiveUpdate sourceAction inst).2.2 = true ↔
      (¬ passiveGuardAbandons activeCondition updater.conditions ∧
        conjunctionGuardHolds activeIdx updater.conditions) := by
  have hgetD : (updater.conditions.get? activeIdx).getD defaultCond = activeCondition := by
    rw [hget]; rfl
  simp only [processUpdater]
  rw [hgetD]
  by_cases h1 : (activeCondition.passive &&
      !(updater.conditions.any fun condition =>
        !condition.passive && (condition.matchedPattern || didConditionChange condition))) = true
  · rw [if_pos h1]
    simp only [show ((inst, ([] : List (Action × Bool)), false)).2.2 = false from rfl]
    constructor
    · intro h; cases h
    · rintro ⟨hnpga, _⟩
      exact absurd ((passiveGuard_bool_iff activeCondition updater.conditions).mp h1) hnpga
  · rw [if_neg h1]
    by_cases h2 : (updater.conditions.enum.all fun ic =>
        ic.1 = activeIdx || ic.2.passive || !ic.2.required ||
        ic.2.matchedPattern || didConditionChange ic.2) = true
    · rw [if_neg (by simp [h2])]
      simp only [show ∀ a b, ((a, b, true) : EpicInst × List (Action × Bool) × Bool).2.2 = true
        from fun _ _ => rfl]
      constructor
      · intro _
        exact ⟨fun hpga => h1 ((passiveGuard_bool_iff activeCondition updater.conditions).mpr hpga),
          (conjunctionGuard_bool_iff activeIdx updater.conditions).mp h2⟩
      · intro _; trivial
    · rw [if_pos (by simp [Bool.not_eq_true'] at h2 ⊢; exact h2)]
      simp only [show ((inst, ([] : List (Action × Bool)), false)).2.2 = false from rfl]
      constructor
      · intro h; cases h
      · rintro ⟨_, hcgh⟩
        exact absurd ((conjunctionGuard_bool_iff activeIdx updater.conditions).mpr hcgh) h2

theorem processUpdater_fires_iff_guards_witness :
    (processUpdater w8Action 0 w7Updater false w8Action wInst).2.2 = true :=
  (processUpdater_fires_iff_guards w8Action w8Action wInst w7Updater 0 false w7CondA rfl).mpr
    ⟨by decide, by decide⟩

/-- C8: for an internal (epic-chained) action, an updater whose triggering
condition's selector returns a value equal to the condition's committed
value is skipped before the evaluator runs: the condition's `_value` is
staged (and cached), but the handler is not invoked, nothing is emitted,
and the instance is untouched. -/
theorem internal_unchanged_selector_skips
    (action sourceAction : Action) (inst : EpicInst) (updater : Updater)
    (i : Nat) (c0 : Cond)
    (hfind : updater.conditions.findIdx? (fun condition => condition.type = action.type) = some i)
    (hget : updater.conditions.get? i = some c0)
    (hsel : getSelectorValue c0 action = c0.value) :
    processActionDirect action false updater sourceAction inst =
      ({ updater with conditions := (updater.conditions.set i
          { c0 with _value := some (getSelectorValue c0 action) }) }, inst, [], false) := by
  simp only [processActionDirect, hfind]
  have hgetD : (updater.conditions.get? i).getD defaultCond = c0 := by rw [hget]; rfl
  rw [hgetD]
  have hch : didConditionChange { c0 with _value := some (getSelectorValue c0 action) } = false := by
    simp [didConditionChange, hsel]
  simp [hch]

theorem internal_unchanged_selector_skips_witness :
    processActionDirect w8Action false w8Updater w8Action wInst =
      ({ w8Updater with conditions := (w8Updater.conditions.set 0
          { w8Cond with _value := some (getSelectorValue w8Cond w8Action) }) }, wInst, [], false) :=
  internal_unchanged_selector_skips w8Action w8Action wInst w8Updater 0 w8Cond rfl rfl rfl

theorem processUpdater_forcePassive_no_internal
    (action sourceAction : Action) (inst : EpicInst) (updater : Updater) (activeIdx : Nat)
    (a : Action) :
    (a, false) ∉ (processUpdater action activeIdx updater true sourceAction inst).2.1 := by
  simp only [processUpdater]
  split
  · simp
  · split
    · simp
    · intro hmem
      simp only [List.mem_append] at hmem
      rcases hmem with hmem | hmem
      · revert hmem
        split
        · simp
        · simp
      · revert hmem
        split
        · simp only [List.mem_map]
          rintro ⟨b, _, hb⟩
          cases hb
        · simp

theorem processUpdater_emits_epic_action
    (action sourceAction : Action) (inst : EpicInst) (updater : Updater) (activeIdx : Nat)
    (hhandler : ∀ vs ctx, ((updater.handler vs ctx).state).isSome = true ∧
      (updater.handler vs ctx).passive = false)
    (hinvoked : (processUpdater action activeIdx updater false sourceAction inst).2.2 = true) :
    ∃ p, ({ type := updater.epic, payload := p }, false) ∈
      (processUpdater action activeIdx updater false sourceAction inst).2.1 := by
  simp only [processUpdater] at hinvoked ⊢
  by_cases h1 : (((updater.conditions.get? activeIdx).getD defaultCond).passive &&
      !(updater.conditions.any fun condition =>
        !condition.passive && (condition.matchedPattern || didConditionChange condition))) = true
  · rw [if_pos h1] at hinvoked
    cases hinvoked
  · rw [if_neg h1] at hinvoked ⊢
    by_cases h2 : (!(updater.conditions.enum.all fun ic =>
        ic.1 = activeIdx || ic.2.passive || !ic.2.required ||
        ic.2.matchedPattern || didConditionChange ic.2)) = true
    · rw [if_pos h2] at hinvoked
      cases hinvoked
    · rw [if_neg h2]
      obtain ⟨hs, hp⟩ := hhandler (getHandlerParams updater.conditions)
        { state := inst.state, currentCycleState := (stageInit inst)._state.getD Val.undef,
          scope := inst.scope, currentCycleScope := (stageInit inst)._scope.getD Val.undef,
          sourceAction := sourceAction, currentAction := action }
      rcases Option.isSome_iff_exists.mp hs with ⟨delta, hdelta⟩
      refine ⟨freeze (merge (unfreeze ((stageInit inst)._state.getD Val.undef)) delta).1, ?_⟩
      cases hscope : (updater.handler (getHandlerParams updater.conditions)
          { state := inst.state, currentCycleState := (stageInit inst)._state.getD Val.undef,
            scope := inst.scope, currentCycleScope := (stageInit inst)._scope.getD Val.undef,
            sourceAction := sourceAction, currentAction := action }).scope with
      | none =>
        simp only [hscope, hdelta, hp]
        exact List.mem_append_left _ (List.mem_singleton_self _)
      | some sdelta =>
        simp only [hscope, hdelta, hp]
        exact List.mem_append_left _ (List.mem_singleton_self _)

/-- C9: an updater triggered through the universal pattern key `*` is
evaluated with `forcePassiveUpdate` and its staged state change never
emits the synthetic Epic action into the pump — every action it hands to
`processAction` is external — while an updater triggered through any
other pattern key whose handler stages state non-passively does emit the
Epic action `{type: epicName, payload: newState}`. -/
theorem star_pattern_suppresses_epic_action
    (action sourceAction : Action) (inst : EpicInst) (updater : Updater) (key : String) :
    (key = "*" → ∀ a : Action,
      (a, false) ∉ (processActionPattern action key updater sourceAction inst).2.2.1) ∧
    (key ≠ "*" →
      (∀ vs ctx, ((updater.handler vs ctx).state).isSome = true ∧
        (updater.handler vs ctx).passive = false) →
      (processActionPattern action key updater sourceAction inst).2.2.2 = true →
      ∃ p, ({ type := updater.epic, payload := p }, false) ∈
        (processActionPattern action key updater sourceAction inst).2.2.1) := by
  constructor
  · intro hkey a
    subst hkey
    simp only [processActionPattern]
    split
    · split
      · simp
      · exact processUpdater_forcePassive_no_internal action sourceAction inst _ _ a
    · simp
  · intro hkey hhandler
    simp only [processActionPattern]
    split
    · split
      · intro hinv; cases hinv
      · have hstar : (decide (key = "*")) = false := decide_eq_false hkey
        rw [hstar]
        intro hinv
        exact processUpdater_emits_epic_action action sourceAction inst _ _ hhandler hinv
    · intro hinv; cases hinv

theorem star_pattern_suppresses_epic_action_witness :
    (({ type := "e9", payload := Val.num 1 } : Action), false) ∉
      (processActionPattern { type := "A1", payload := Val.undef } "*" (w9Updater "*")
        { type := "A1", payload := Val.undef } wInst).2.2.1 ∧
    ∃ p, (({ type := "e9", payload := p } : Action), false) ∈
      (processActionPattern { type := "ab", payload := Val.undef } "a*" (w9Updater "a*")
        { type := "ab", payload := Val.undef } wInst).2.2.1 :=
  ⟨(star_pattern_suppresses_epic_action { type := "A1", payload := Val.undef }
      { type := "A1", payload := Val.undef } wInst (w9Updater "*") "*").1 rfl _,
   (star_pattern_suppresses_epic_action { type := "ab", payload := Val.undef }
      { type := "ab", payload := Val.undef } wInst (w9Updater "a*") "a*").2
     (by decide) (fun vs ctx => ⟨rfl, rfl⟩) (by decide)⟩

theorem processEpicListeners_no_throw (epicCache : List (String × Val)) (sourceAction : Action) :
    ∀ listeners : List Listener,
      (∀ l ∈ listeners, ∀ vs, l.handler vs sourceAction = Except.ok ()) →
      (processEpicListeners epicCache listeners sourceAction).2 = [] := by
  intro listeners
  induction listeners with
  | nil => intro _; rfl
  | cons l rest ih =>
    intro h
    have hl : (runListener epicCache sourceAction l).2 = none := by
      simp [runListener, h l (List.mem_cons_self l rest)]
    have hrest := ih fun x hx vs => h x (List.mem_cons_of_mem l hx) vs
    show ((l :: rest).map (runListener epicCache sourceAction)).filterMap (fun p => p.2) = []
    rw [List.map_cons, List.filterMap_cons, hl]
    exact hrest

/-- C10: for a cycle whose pump completes without error, each listener
handler that throws is caught individually and collected without touching
the committed store: the finalized store is independent of the collected
listener errors, dispatch throws the collected list exactly when it is
non-empty, and when no listener throws dispatch returns normally. -/
theorem listener_errors_collected_and_thrown
    (epicCache : List (String × Val)) (listeners : List Listener) (sourceAction : Action)
    (undo : Bool) (maxUndoStack : Nat) (entry : UndoEntry) (caches : CycleCaches)
    (s : CycleStore) :
    (dispatchFinalize undo maxUndoStack none
        (processEpicListeners epicCache listeners sourceAction).2 entry caches s).1 =
      (dispatchFinalize undo maxUndoStack none [] entry caches s).1 ∧
    (dispatchFinalize undo maxUndoStack none
        (processEpicListeners epicCache listeners sourceAction).2 entry caches s).2 =
      (if (processEpicListeners epicCache listeners sourceAction).2.isEmpty then Except.ok ()
       else Except.error (DispatchThrow.postProcessing
         (processEpicListeners epicCache listeners sourceAction).2)) ∧
    ((∀ l ∈ listeners, ∀ vs, l.handler vs sourceAction = Except.ok ()) →
      (processEpicListeners epicCache listeners sourceAction).2 = []) :=
  ⟨rfl, rfl, processEpicListeners_no_throw epicCache sourceAction listeners⟩

theorem listener_errors_collected_and_thrown_witness :
    (dispatchFinalize false 10 none
        (processEpicListeners w10Cache [w10Ok] w8Action).2 [] emptyCaches wStore1).1 =
      (dispatchFinalize false 10 none [] [] emptyCaches wStore1).1 ∧
    (processEpicListeners w10Cache [w10Ok] w8Action).2 = [] :=
  ⟨(listener_errors_collected_and_thrown w10Cache [w10Ok] w8Action false 10 [] emptyCaches
      wStore1).1,
   (listener_errors_collected_and_thrown w10Cache [w10Ok] w8Action false 10 [] emptyCaches
      wStore1).2.2
     (by
       intro l hl vs
       have := List.mem_singleton.mp hl
       subst this
       rfl)⟩

theorem pushType_epicRegistry (patterns : Bool) (t : String) (u : RUpdater)
    (regs : Registries) :
    (pushType patterns t u regs).epicRegistry = regs.epicRegistry := by
  unfold pushType
  split <;> rfl

theorem foldl_pushType_epicRegistry (patterns : Bool) (u : RUpdater) :
    ∀ (l : List PCondT) (regs : Registries),
      (l.foldl (fun r c => pushType patterns (condType c) u r) regs).epicRegistry =
        regs.epicRegistry := by
  intro l
  induction l with
  | nil => intro regs; rfl
  | cons c rest ih =>
    intro regs
    rw [List.foldl_cons, ih, pushType_epicRegistry]

theorem registerSplitsLoop_epicRegistry (patterns : Bool) (name : String) (index : Nat) :
    ∀ (splits : List (List PCondT)) (regs : Registries),
      (registerSplitsLoop patterns name index splits regs).1.epicRegistry =
        regs.epicRegistry := by
  intro splits
  induction splits with
  | nil => intro regs; rfl
  | cons conds rest ih =>
    intro regs
    simp only [registerSplitsLoop]
    split
    · have hfold := foldl_pushType_epicRegistry patterns
        { epic := name, conditions := conds, index := index } conds regs
      have hrec := ih (conds.foldl (fun r c => pushType patterns (condType c)
        { epic := name, conditions := conds, index := index } r) regs)
      rcases h : registerSplitsLoop patterns name index rest
          (conds.foldl (fun r c => pushType patterns (condType c)
            { epic := name, conditions := conds, index := index } r) regs) with ⟨regs2, res⟩
      rw [h] at hrec
      cases res with
      | ok us => simpa [hfold] using hrec
      | error e => simpa [hfold] using hrec
    · rfl

theorem registerUpdater_epicRegistry (patterns : Bool) (name : String) (index : Nat)
    (cs : List InCond) (regs : Registries) :
    (registerUpdater patterns name index cs regs).1.epicRegistry = regs.epicRegistry := by
  unfold registerUpdater
  cases h : processConditions name cs with
  | error e => rfl
  | ok pcs => exact registerSplitsLoop_epicRegistry patterns name index (splitConditions pcs) regs

theorem registerUpdatersLoop_epicRegistry (patterns : Bool) (name : String) :
    ∀ (updaters : List (List InCond)) (index : Nat) (regs : Registries),
      (registerUpdatersLoop patterns name index updaters regs).1.epicRegistry =
        regs.epicRegistry := by
  intro updaters
  induction updaters with
  | nil => intro index regs; rfl
  | cons u rest ih =>
    intro index regs
    simp only [registerUpdatersLoop]
    have hu := registerUpdater_epicRegistry patterns name index u regs
    cases h1 : (registerUpdater patterns name index u regs).2 with
    | error e => exact hu
    | ok us =>
      have hr := ih (index + 1) (registerUpdater patterns name index u regs).1
      cases h2 : (registerUpdatersLoop patterns name (index + 1) rest
          (registerUpdater patterns name index u regs).1).2 with
      | ok uss => exact hr.trans hu
      | error e => exact hr.trans hu

/-- C3 (counterexample): `register` called with a valid first updater and a
second updater whose condition `type` is not a string throws
`invalidConditionType`, yet leaves the first updater's push in
`updaterRegistry`: observable state is mutated by the failing call. -/
theorem register_error_mutates_updaterRegistry :
    (register false emptyRegistries c3Input).2 = some (RegError.invalidConditionType "E") ∧
    (register false emptyRegistries c3Input).1.updaterRegistry.length = 1 ∧
    emptyRegistries.updaterRegistry.length = 0 :=
  ⟨by decide, by decide, rfl⟩

/-- C3 (amended): a `register` call that throws never mutates
`epicRegistry`, and a `duplicateEpic` failure (the name is already
registered) mutates nothing at all and is detected before any other
work; however `updaterRegistry`/`patternRegistry` may retain updaters
pushed for split vectors processed before the error was raised. -/
theorem register_error_preserves_epicRegistry
    (patterns : Bool) (regs : Registries) (input : EpicInput) (e : RegError)
    (herr : (register patterns regs input).2 = some e) :
    (register patterns regs input).1.epicRegistry = regs.epicRegistry ∧
    ((regs.epicRegistry.lookup input.name).isSome = true →
      register patterns regs input = (regs, some (RegError.duplicateEpic input.name))) := by
  constructor
  · simp only [register] at herr ⊢
    by_cases hdup : (regs.epicRegistry.lookup input.name).isSome = true
    · rw [if_pos hdup]
    · rw [if_neg hdup] at herr ⊢
      have hl := registerUpdatersLoop_epicRegistry patterns input.name input.updaters 0 regs
      cases h1 : (registerUpdatersLoop patterns input.name 0 input.updaters regs).2 with
      | error e2 => exact hl
      | ok compiled =>
        rw [h1] at herr
        exact absurd herr (by simp)
  · intro hdup
    simp only [register]
    rw [if_pos hdup]

theorem register_error_preserves_epicRegistry_witness :
    (register false emptyRegistries c3Input).1.epicRegistry = emptyRegistries.epicRegistry :=
  (register_error_preserves_epicRegistry false emptyRegistries c3Input
    (RegError.invalidConditionType "E") (by decide)).1

end Ricochet
